import Mathlib

/-!
Verification of the gobuffalo/envy environment-overlay engine against its
natural-language specification.  Go strings are modelled as lists of
characters; Go maps (and the syncx.StringMap / envMap stores) as association
lists with first-binding-wins lookup and in-place upsert; the OS process
environment, the filesystem and the external commands consulted by the code
as explicit oracle state threaded through every operation.
-/

set_option autoImplicit false

namespace Envy

/-- Go strings, modelled as lists of characters. -/
abbrev Str := List Char

/-- The separator character of the `KEY=VALUE` environ / env-file formats. -/
def eqc : Char := '='

/-- Association-list lookup, first binding wins: models reading a Go map,
`syncx.StringMap.Load` and `envMap.Load`. -/
def lookupA {α : Type} : List (Str × α) → Str → Option α
  | [], _ => none
  | p :: rest, k => if p.1 = k then some p.2 else lookupA rest k

/-- Association-list upsert replacing the first binding in place (appending
when absent): models writing a Go map, `syncx.StringMap.Store` and
`envMap.Store`. -/
def storeA {α : Type} : List (Str × α) → Str → α → List (Str × α)
  | [], k, v => [(k, v)]
  | p :: rest, k, v => if p.1 = k then (k, v) :: rest else p :: storeA rest k v

/-- First-`some`-wins choice on options, used to express lookups over
concatenations and folds. -/
def orElseO {α : Type} : Option α → Option α → Option α
  | some v, _ => some v
  | none, b => b

/-- Split a character list on a separator character, faithful to Go
`strings.Split` with a one-character separator:
`splitOnChar '=' "a=b=c" = ["a","b","c"]` and `splitOnChar '=' "" = [""]`. -/
def splitOnChar (c : Char) : Str → List Str
  | [] => [[]]
  | x :: xs =>
      match splitOnChar c xs with
      | [] => if x = c then [[], []] else [[x]]
      | y :: ys => if x = c then [] :: y :: ys else (x :: y) :: ys

/-- The OS process environment: an association of variable names to values. -/
structure OS where
  vars : List (Str × Str)
deriving DecidableEq

/-- os.Getenv: the empty string when the variable is absent. -/
def getenv (os : OS) (k : Str) : Str := (lookupA os.vars k).getD []

/-- An unchecked OS environment write (used where the Go code ignores the
error of os.Setenv, as godotenv and the GOPATH repair do). -/
def osStore (os : OS) (k v : Str) : OS := ⟨storeA os.vars k v⟩

/-- os.Environ: one `KEY=VALUE` entry per variable. -/
def environ (os : OS) : List Str := os.vars.map fun p => p.1 ++ eqc :: p.2

/-- The NUL character, rejected by the OS environment primitives. -/
def nulc : Char := Char.ofNat 0

/-- Whether os.Setenv accepts the key and value (Unix semantics: a non-empty
key containing neither '=' nor NUL, and a NUL-free value). -/
def setenvOK (k v : Str) : Bool :=
  !k.isEmpty && !k.contains eqc && !k.contains nulc && !v.contains nulc

/-- The error reported by os.Setenv on an invalid key or value. -/
inductive OSError where
  | invalid (k v : Str)
deriving DecidableEq

/-- os.Setenv with its error surfaced. -/
def setenv (os : OS) (k v : Str) : Except OSError OS :=
  if setenvOK k v then .ok (osStore os k v) else .error (.invalid k v)

def kGOPATH : Str := String.toList "GOPATH"

def kGOMOD : Str := String.toList "GOMOD"

def kGO_BIN : Str := String.toList "GO_BIN"

def kGO111MODULE : Str := String.toList "GO111MODULE"

def kGO_ENV : Str := String.toList "GO_ENV"

def sGo : Str := String.toList "go"

def sOff : Str := String.toList "off"

def sTest : Str := String.toList "test"

/-!
## The `Environment` variant (envy.go function facade, envMap store)

External collaborators are oracles carried in `World`: the OS process
environment, whether `packages.Load` in `New` yields a usable package, and
the outputs of the `go env GOPATH` / `go env GOMOD` commands (`none` models
a command error; the oracle value stands for the already-trimmed output).
-/

structure World where
  os : OS
  pkgsOK : Bool
  goEnvGOPATH : Option Str
  goEnvGOMOD : Option Str
deriving DecidableEq

structure Environment where
  pairs : List (Str × Str)
  goPath : Str
  goMod : Str
  goBin : Str
deriving DecidableEq

/-- The key and value a seeding loop extracts from one os.Environ entry in
the Environment variant: split on every '=' and keep the first two segments
(`pair[0]` and `pair[1]` in the source). -/
def entryKV (en : Str) : Str × Str :=
  ((splitOnChar eqc en).headD [], (splitOnChar eqc en).getD 1 [])

/-- The seeding loop of (*Environment).loadEnv: store, for every os.Environ
entry, its first '='-segment as key and its second as value, into a fresh
map. -/
def seedPairs (os : OS) : List (Str × Str) :=
  (environ os).foldl (fun acc en => storeA acc (entryKV en).1 (entryKV en).2) []

/-- (*Environment).loadEnv: repair an unset GOPATH from `go env GOPATH`
(writing it back into the OS and into the goPath field), then seed a fresh
pairs map from os.Environ via `seedPairs`. -/
def Environment.loadEnv (w : World) (e : Environment) : World × Environment :=
  let repair : Option Str := if getenv w.os kGOPATH = [] then w.goEnvGOPATH else none
  let os1 := match repair with
    | some gp => osStore w.os kGOPATH gp
    | none => w.os
  let e1 := match repair with
    | some gp => { e with goPath := gp }
    | none => e
  ({ w with os := os1 }, { e1 with pairs := seedPairs os1 })

/-- (*Environment).loadGoMod: record the output of `go env GOMOD` when the
command succeeds; always reports success. -/
def Environment.loadGoMod (w : World) (e : Environment) : Environment :=
  match w.goEnvGOMOD with
  | some out => { e with goMod := out }
  | none => e

/-- The error with which `New` fails when packages.Load errors or finds no
packages. -/
inductive NewError where
  | pkgs
deriving DecidableEq

/-- New: load the enclosing package (fallible), take GO_BIN from the OS with
default "go", then loadEnv and loadGoMod. -/
def Environment.new (w : World) : World × Except NewError Environment :=
  if w.pkgsOK then
    let gb := getenv w.os kGO_BIN
    let e0 : Environment :=
      { pairs := [], goPath := [], goMod := [], goBin := if gb = [] then sGo else gb }
    let we := Environment.loadEnv w e0
    (we.1, .ok (Environment.loadGoMod we.1 we.2))
  else (w, .error .pkgs)

/-- (*Environment).Reload: rebuild via `New`; on failure return the error and
leave the engine untouched, on success replace the whole engine. -/
def Environment.Reload (w : World) (e : Environment) : World × Environment × Option NewError :=
  match Environment.new w with
  | (w1, .ok en) => (w1, en, none)
  | (w1, .error err) => (w1, e, some err)

/-- envMap.LoadOrStore: return the existing binding, or store the given value
and return it. -/
def loadOrStoreA (m : List (Str × Str)) (k v : Str) : List (Str × Str) × Str :=
  match lookupA m k with
  | some s => (m, s)
  | none => (storeA m k v, v)

/-- (*Environment).GetOr (the facade's Get): LoadOrStore the default into the
pairs map. -/
def Environment.GetOr (e : Environment) (key value : Str) : Environment × Str :=
  let r := loadOrStoreA e.pairs key value
  ({ e with pairs := r.1 }, r.2)

/-- The not-found error of MustGet. -/
inductive GetError where
  | notFound (key : Str)
deriving DecidableEq

/-- (*Environment).Get (the facade's MustGet): the stored value, or an error
when the key is absent. -/
def Environment.Get (e : Environment) (key : Str) : Except GetError Str :=
  match lookupA e.pairs key with
  | some s => .ok s
  | none => .error (.notFound key)

/-- (*Environment).Set: update the go-specific fields for the four special
keys, then store into the pairs map; the OS environment is not touched, so
the world is returned unchanged. -/
def Environment.Set (w : World) (e : Environment) (key value : Str) : World × Environment :=
  let e1 :=
    if key = kGOPATH then { e with goPath := value }
    else if key = kGOMOD then { e with goMod := value }
    else if key = kGO_BIN then { e with goBin := value }
    else if key = kGO111MODULE then
      if value = sOff then { e with goMod := [] } else Environment.loadGoMod w e
    else e
  (w, { e1 with pairs := storeA e1.pairs key value })

/-- (*Environment).ForceSet (the facade's MustSet): os.Setenv first; only on
success also store into the pairs map. -/
def Environment.ForceSet (w : World) (e : Environment) (key value : Str) :
    World × Environment × Option OSError :=
  match setenv w.os key value with
  | .error err => (w, e, some err)
  | .ok os1 => ({ w with os := os1 }, { e with pairs := storeA e.pairs key value }, none)

/-- Copy a store by ranging over its pairs and storing each one into a fresh
map, as (*Environment).Map, (*Environment).Clone and (*Env).Map do. -/
def copyStore (s : List (Str × Str)) : List (Str × Str) :=
  s.foldl (fun m p => storeA m p.1 p.2) []

/-- (*Environment).Map: a fresh mapping holding a copy of every pair. -/
def Environment.Map (e : Environment) : List (Str × Str) := copyStore e.pairs

/-!
## The `Env` variant (syncx.StringMap store)

Its collaborators, again as oracles in the world: the OS environment, the
test-runner flag `test.v`, the `go env GOPATH` command, and the filesystem
seen by os.Stat and godotenv.  A file is a path bound to `some pairs` (it
exists and parses to those pairs, in file order) or to `none` (it exists but
is malformed); an unbound path does not exist.
-/

structure WorldEnv where
  os : OS
  testFlag : Bool
  goEnvGOPATH : Option Str
  fs : List (Str × Option (List (Str × Str)))
deriving DecidableEq

/-- The errors surfaced by Load: os.Stat on a missing/inaccessible path, or a
godotenv parse failure. -/
inductive FileError where
  | stat (file : Str)
  | parse (file : Str)
deriving DecidableEq

/-- os.Stat succeeds exactly on paths bound in the filesystem. -/
def statOK (fs : List (Str × Option (List (Str × Str)))) (file : Str) : Bool :=
  (lookupA fs file).isSome

/-- The file exists and parses: its merge cannot fail. -/
def fileOK (fs : List (Str × Option (List (Str × Str)))) (file : Str) : Bool :=
  match lookupA fs file with
  | some (some _) => true
  | _ => false

/-- Writing a parsed file's pairs over the OS environment in file order. -/
def overlayOS (os : OS) (pairs : List (Str × Str)) : OS :=
  pairs.foldl (fun acc p => osStore acc p.1 p.2) os

/-- godotenv.Overload(file): parse the file and write every pair into the OS
environment, overriding already-set variables (overload semantics, write
errors ignored as in godotenv). -/
def overloadFile (w : WorldEnv) (file : Str) : Except FileError WorldEnv :=
  match lookupA w.fs file with
  | none => .error (.stat file)
  | some none => .error (.parse file)
  | some (some pairs) => .ok { w with os := overlayOS w.os pairs }

/-- The default path loaded by godotenv.Overload() with no arguments. -/
def dotenvPath : Str := String.toList ".env"

structure Env where
  env : List (Str × Str)
deriving DecidableEq

/-- The seeding loop of (*Env).loadEnv: for every os.Environ entry, store its
first '='-segment as key with os.Getenv of that key as value, on top of the
given base store. -/
def seedStore (os : OS) (base : List (Str × Str)) : List (Str × Str) :=
  (environ os).foldl
    (fun acc x => storeA acc ((splitOnChar eqc x).headD []) (getenv os ((splitOnChar eqc x).headD []))) base

/-- The GOPATH repair performed by loadEnv: when GOPATH is unset and
`go env GOPATH` succeeds, write its (trimmed) output into the OS. -/
def repairGOPATH (os : OS) (cmd : Option Str) : OS :=
  if getenv os kGOPATH = [] then
    match cmd with
    | some gp => osStore os kGOPATH gp
    | none => os
  else os

/-- (*Env).loadEnv: inject GO_ENV=test when running under the test flag with
GO_ENV unset, repair an unset GOPATH from `go env GOPATH` (writing it into
the OS), then seed the store from os.Environ via `seedStore`. -/
def Env.loadEnv (w : WorldEnv) (e : Env) : WorldEnv × Env :=
  let e1 :=
    if getenv w.os kGO_ENV = [] && w.testFlag then
      Env.mk (storeA e.env kGO_ENV sTest)
    else e
  let os1 := repairGOPATH w.os w.goEnvGOPATH
  ({ w with os := os1 }, Env.mk (seedStore os1 e1.env))

/-- (*Env).Reload: discard the store and reseed via loadEnv. -/
def Env.Reload (w : WorldEnv) (e : Env) : WorldEnv × Env :=
  Env.loadEnv w { e with env := [] }

/-- The loop of (*Env).Load over a non-empty file list: stat, overload,
reload, in call order, stopping at the first failure. -/
def Env.loadFiles (w : WorldEnv) (e : Env) : List Str → WorldEnv × Env × Option FileError
  | [] => (w, e, none)
  | file :: rest =>
      if statOK w.fs file then
        match overloadFile w file with
        | .error err => (w, e, some err)
        | .ok w1 =>
            let we := Env.Reload w1 e
            Env.loadFiles we.1 we.2 rest
      else (w, e, some (.stat file))

/-- (*Env).Load: with no arguments, godotenv.Overload() on the default .env
(reloading only on success); otherwise the file loop. -/
def Env.Load (w : WorldEnv) (e : Env) (files : List Str) : WorldEnv × Env × Option FileError :=
  if files.isEmpty then
    match overloadFile w dotenvPath with
    | .error err => (w, e, some err)
    | .ok w1 =>
        let we := Env.Reload w1 e
        (we.1, we.2, none)
  else Env.loadFiles w e files

/-- (*Env).Get: the stored value, or the supplied default. -/
def Env.Get (e : Env) (key value : Str) : Str :=
  match lookupA e.env key with
  | some v => v
  | none => value

/-- (*Env).MustGet: the stored value, or a not-found error. -/
def Env.MustGet (e : Env) (key : Str) : Except GetError Str :=
  match lookupA e.env key with
  | some v => .ok v
  | none => .error (.notFound key)

/-- (*Env).Set: store into the map only. -/
def Env.Set (e : Env) (key value : Str) : Env :=
  Env.mk (storeA e.env key value)

/-!
## Reference-level model of the facade's Temp and Map

Go's `env` package variable holds a reference to the current store; Temp
swaps that reference for a clone and restores it by defer, and Map hands the
caller a freshly allocated copy.  To state the aliasing content of those
operations (C2, C9) the stores live in an explicit heap of cells and the
current store is a cell index.
-/

/-- The heap of store cells. -/
abbrev StoreCells := List (List (Str × Str))

/-- The facade's memory: a heap of store cells and the index of the current
store (the `env` package variable). -/
structure Mem where
  heap : StoreCells
  cur : Nat
deriving DecidableEq

def readCell (h : StoreCells) (i : Nat) : List (Str × Str) := h.getD i []

def writeCell (h : StoreCells) (i : Nat) (s : List (Str × Str)) : StoreCells := h.set i s

/-- The body of a Temp call, as the facade operations it may perform: local
Set / Delete writes on the current store, nested Temp blocks, and panicking. -/
inductive Cmd where
  | set (key value : Str)
  | del (key : Str)
  | temp (body : List Cmd)
  | abort

/-- Removal of the first binding of a key (sync.Map.Delete). -/
def deleteA : List (Str × Str) → Str → List (Str × Str)
  | [], _ => []
  | p :: rest, k => if p.1 = k then rest else p :: deleteA rest k

mutual

/-- Run one facade operation.  The Bool is false when a panic is propagating;
`temp` saves the current reference, allocates a clone, runs its body there
and restores the saved reference unconditionally (the defer), re-raising any
panic. -/
def execCmd : Cmd → Mem → Mem × Bool
  | .set k v, m =>
      ({ m with heap := writeCell m.heap m.cur (storeA (readCell m.heap m.cur) k v) }, true)
  | .del k, m =>
      ({ m with heap := writeCell m.heap m.cur (deleteA (readCell m.heap m.cur) k) }, true)
  | .abort, m => (m, false)
  | .temp body, m =>
      let saved := m.cur
      let m1 : Mem := { heap := m.heap ++ [copyStore (readCell m.heap m.cur)],
                        cur := m.heap.length }
      let r := execProg body m1
      ({ r.1 with cur := saved }, r.2)

/-- Run a body left to right, stopping at a panic. -/
def execProg : List Cmd → Mem → Mem × Bool
  | [], m => (m, true)
  | c :: p, m =>
      let r := execCmd c m
      if r.2 then execProg p r.1 else (r.1, false)

end

/-- The facade's Temp with an arbitrary body. -/
def facadeTemp (body : List Cmd) (m : Mem) : Mem × Bool := execCmd (.temp body) m

/-- The facade's Map: allocate a fresh mapping, copy every pair of the
current store into it, and hand back a reference to the new mapping. -/
def facadeMapAlloc (m : Mem) : Mem × Nat :=
  ({ m with heap := m.heap ++ [copyStore (readCell m.heap m.cur)] }, m.heap.length)

/-- The snapshot Map() returns, by contents. -/
def facadeMapValue (m : Mem) : List (Str × Str) := copyStore (readCell m.heap m.cur)

/-- The value the facade's Get(key, default) hands back. -/
def facadeGetValue (m : Mem) (key value : Str) : Str :=
  (lookupA (readCell m.heap m.cur) key).getD value

/-- A caller-side mutation of a mapping it was handed: overwrite the cell
with any function of its contents. -/
def mutateCell (m : Mem) (r : Nat) (g : List (Str × Str) → List (Str × Str)) : Mem :=
  { m with heap := writeCell m.heap r (g (readCell m.heap r)) }

/-- A whole sequence of caller-side mutations of one cell. -/
def mutateCellMany (m : Mem) (r : Nat) (gs : List (List (Str × Str) → List (Str × Str))) : Mem :=
  gs.foldl (fun acc g => mutateCell acc r g) m

/-!
## Library lemmas about the store, split and fold operations
-/

theorem lookupA_storeA_self {α : Type} (m : List (Str × α)) (k : Str) (v : α) :
    lookupA (storeA m k v) k = some v := by
  induction m with
  | nil => simp [storeA, lookupA]
  | cons p rest ih =>
      by_cases h : p.1 = k
      · simp [storeA, lookupA, h]
      · simp [storeA, lookupA, h, ih]

theorem lookupA_storeA_ne {α : Type} (m : List (Str × α)) (k k' : Str) (v : α)
    (h : k' ≠ k) : lookupA (storeA m k v) k' = lookupA m k' := by
  induction m with
  | nil =>
      simp only [storeA, lookupA]
      rw [if_neg (fun hh => h hh.symm)]
  | cons p rest ih =>
      by_cases hp : p.1 = k
      · subst hp
        simp only [storeA, if_pos rfl, lookupA]
        rw [if_neg (fun hh : p.1 = k' => h hh.symm), if_neg (fun hh : p.1 = k' => h hh.symm)]
      · simp only [storeA, if_neg hp, lookupA, ih]

/-- Upserting keeps every existing key bound. -/
theorem mem_keys_storeA {α : Type} (m : List (Str × α)) (k k' : Str) (v : α)
    (h : k' ∈ m.map Prod.fst) : k' ∈ (storeA m k v).map Prod.fst := by
  induction m with
  | nil => exact absurd h (by simp)
  | cons p rest ih =>
      simp only [List.map_cons, List.mem_cons] at h
      by_cases hp : p.1 = k
      · rw [storeA, if_pos hp]
        simp only [List.map_cons, List.mem_cons]
        rcases h with h | h
        · exact Or.inl (hp ▸ h)
        · exact Or.inr h
      · rw [storeA, if_neg hp]
        simp only [List.map_cons, List.mem_cons]
        rcases h with h | h
        · exact Or.inl h
        · exact Or.inr (ih h)

theorem lookupA_append {α : Type} (xs ys : List (Str × α)) (k : Str) :
    lookupA (xs ++ ys) k = orElseO (lookupA xs k) (lookupA ys k) := by
  induction xs with
  | nil => simp [lookupA, orElseO]
  | cons p rest ih =>
      by_cases hp : p.1 = k
      · simp [lookupA, hp, orElseO]
      · simp [lookupA, hp, ih]

theorem lookupA_mem_keys {α : Type} (m : List (Str × α)) (k : Str) (v : α)
    (h : lookupA m k = some v) : k ∈ m.map Prod.fst := by
  induction m with
  | nil => simp [lookupA] at h
  | cons p rest ih =>
      by_cases hp : p.1 = k
      · exact List.mem_map.mpr ⟨p, List.mem_cons_self p rest, hp⟩
      · simp only [lookupA, if_neg hp] at h
        simp only [List.map_cons, List.mem_cons]
        exact Or.inr (ih h)

theorem splitOnChar_ne_nil (c : Char) (s : Str) : splitOnChar c s ≠ [] := by
  cases s with
  | nil => simp [splitOnChar]
  | cons x xs =>
      rw [splitOnChar]
      cases h : splitOnChar c xs with
      | nil => by_cases hx : x = c <;> simp [hx]
      | cons y ys => by_cases hx : x = c <;> simp [hx]

/-- Splitting `k ++ '=' ++ v` when `k` is free of the separator yields `k`
followed by the split of `v`. -/
theorem splitOnChar_append_sep (c : Char) (k v : Str) (hk : c ∉ k) :
    splitOnChar c (k ++ c :: v) = k :: splitOnChar c v := by
  induction k with
  | nil =>
      rw [List.nil_append, splitOnChar]
      cases h : splitOnChar c v with
      | nil => exact absurd h (splitOnChar_ne_nil c v)
      | cons y ys => simp
  | cons x xs ih =>
      have hx : x ≠ c := fun hh => hk (hh ▸ List.mem_cons_self x xs)
      have hxs : c ∉ xs := fun hh => hk (List.mem_cons_of_mem x hh)
      rw [List.cons_append, splitOnChar, ih hxs]
      simp [hx]

/-- A fold of keyed writes whose keys all avoid `k` leaves the lookup of `k`
alone. -/
theorem lookupA_foldl_store_frame {α : Type} (f : Str → Str) (g : Str → α) :
    ∀ (entries : List Str) (base : List (Str × α)) (k : Str),
    (∀ x ∈ entries, f x ≠ k) →
    lookupA (entries.foldl (fun acc x => storeA acc (f x) (g x)) base) k = lookupA base k := by
  intro entries
  induction entries with
  | nil => intro base k _; rfl
  | cons x rest ih =>
      intro base k hne
      rw [List.foldl_cons, ih _ _ (fun y hy => hne y (List.mem_cons_of_mem x hy))]
      exact lookupA_storeA_ne _ _ _ _ (fun hh => hne x (List.mem_cons_self x rest) hh.symm)

/-- A fold of keyed writes: if some entry writes key `k`, and every entry
that writes `k` writes the same value `c`, the final lookup of `k` is `c`. -/
theorem lookupA_foldl_store_entries {α : Type} (f : Str → Str) (g : Str → α) :
    ∀ (entries : List Str) (base : List (Str × α)) (k : Str) (c : α),
    (∃ x ∈ entries, f x = k) → (∀ x ∈ entries, f x = k → g x = c) →
    lookupA (entries.foldl (fun acc x => storeA acc (f x) (g x)) base) k = some c := by
  intro entries
  induction entries with
  | nil =>
      intro base k c hex _
      exact absurd hex (by simp)
  | cons x rest ih =>
      intro base k c hex hall
      rw [List.foldl_cons]
      by_cases hrest : ∃ y ∈ rest, f y = k
      · exact ih _ _ _ hrest (fun y hy => hall y (List.mem_cons_of_mem x hy))
      · have hx : f x = k := by
          rcases hex with ⟨y, hy, hfy⟩
          rcases List.mem_cons.mp hy with h | h
          · exact h ▸ hfy
          · exact absurd ⟨y, h, hfy⟩ hrest
        have hne : ∀ y ∈ rest, f y ≠ k := fun y hy hfy => hrest ⟨y, hy, hfy⟩
        rw [lookupA_foldl_store_frame f g rest _ k hne, hx, lookupA_storeA_self]
        exact congrArg some (hall x (List.mem_cons_self x rest) hx)

/-- With separator-free key `k` bound in the OS, the Env-variant seeding
yields os.Getenv's (full) value for `k`. -/
theorem lookupA_seedStore (os : OS) (base : List (Str × Str)) (k : Str)
    (hk : eqc ∉ k) (hmem : k ∈ os.vars.map Prod.fst) :
    lookupA (seedStore os base) k = some (getenv os k) := by
  unfold seedStore
  apply lookupA_foldl_store_entries (fun x => (splitOnChar eqc x).headD [])
    (fun x => getenv os ((splitOnChar eqc x).headD []))
  · rcases List.mem_map.mp hmem with ⟨p, hp, hpk⟩
    refine ⟨p.1 ++ eqc :: p.2, List.mem_map.mpr ⟨p, hp, rfl⟩, ?_⟩
    rw [splitOnChar_append_sep eqc p.1 p.2 (hpk ▸ hk)]
    exact hpk
  · intro x _ hfx
    rw [hfx]

/-- Two bindings of the same key coincide when the keys are duplicate-free. -/
theorem mem_eq_of_nodup_keys {α : Type} (l : List (Str × α)) (k : Str) (v v' : α)
    (hnd : (l.map Prod.fst).Nodup) (h : (k, v) ∈ l) (h' : (k, v') ∈ l) : v = v' := by
  induction l with
  | nil => simp at h
  | cons p rest ih =>
      rcases List.mem_cons.mp h with h0 | h0 <;> rcases List.mem_cons.mp h' with h1 | h1
      · rw [← h0] at h1
        exact (congrArg Prod.snd h1).symm
      · exfalso
        apply (List.nodup_cons.mp hnd).1
        have hkp : k = p.1 := congrArg Prod.fst h0
        exact hkp ▸ List.mem_map.mpr ⟨(k, v'), h1, rfl⟩
      · exfalso
        apply (List.nodup_cons.mp hnd).1
        have hkp : k = p.1 := congrArg Prod.fst h1
        exact hkp ▸ List.mem_map.mpr ⟨(k, v), h0, rfl⟩
      · exact ih (List.nodup_cons.mp hnd).2 h0 h1

/-- With well-formed, duplicate-free OS keys, the Environment-variant seeding
binds each key to the *second '='-segment* of its entry: the value truncated
at its first '='. -/
theorem lookupA_seedPairs (os : OS) (k v : Str)
    (hwf : ∀ p ∈ os.vars, eqc ∉ p.1)
    (hnd : (os.vars.map Prod.fst).Nodup)
    (hkv : (k, v) ∈ os.vars) :
    lookupA (seedPairs os) k = some ((splitOnChar eqc v).headD []) := by
  unfold seedPairs
  apply lookupA_foldl_store_entries (fun en => (entryKV en).1) (fun en => (entryKV en).2)
  · refine ⟨k ++ eqc :: v, List.mem_map.mpr ⟨(k, v), hkv, rfl⟩, ?_⟩
    show ((splitOnChar eqc (k ++ eqc :: v)).headD []) = k
    rw [splitOnChar_append_sep eqc k v (hwf (k, v) hkv)]
    rfl
  · intro x hx hfx
    rcases List.mem_map.mp hx with ⟨q, hq, hqx⟩
    have hsplit : splitOnChar eqc x = q.1 :: splitOnChar eqc q.2 := by
      rw [← hqx]
      exact splitOnChar_append_sep eqc q.1 q.2 (hwf q hq)
    have hq1 : q.1 = k := by
      have : (entryKV x).1 = q.1 := by
        show (splitOnChar eqc x).headD [] = q.1
        rw [hsplit]
        rfl
      exact this ▸ hfx
    have hqv : q.2 = v := by
      have : (k, q.2) ∈ os.vars := by
        have : q = (k, q.2) := Prod.ext hq1 rfl
        exact this ▸ hq
      exact mem_eq_of_nodup_keys os.vars k q.2 v hnd this hkv
    show (splitOnChar eqc x).getD 1 [] = (splitOnChar eqc v).headD []
    rw [hsplit, hqv]
    cases hsv : splitOnChar eqc v with
    | nil => exact absurd hsv (splitOnChar_ne_nil eqc v)
    | cons y ys => rfl

/-- A fold of pair-writes, as a lookup: the last write of `k` wins, the base
otherwise. -/
theorem lookupA_foldl_storeA {α : Type} (l : List (Str × α)) :
    ∀ (base : List (Str × α)) (k : Str),
    lookupA (l.foldl (fun acc p => storeA acc p.1 p.2) base) k =
      orElseO (lookupA l.reverse k) (lookupA base k) := by
  induction l with
  | nil => intro base k; simp [lookupA, orElseO]
  | cons p rest ih =>
      intro base k
      rw [List.foldl_cons, ih, List.reverse_cons, lookupA_append]
      cases hr : lookupA rest.reverse k with
      | some v => simp [orElseO]
      | none =>
          simp only [orElseO]
          by_cases hp : p.1 = k
          · subst hp
            rw [lookupA_storeA_self]
            simp [lookupA, orElseO]
          · rw [lookupA_storeA_ne _ _ _ _ (fun hh => hp hh.symm)]
            simp [lookupA, hp, orElseO]

theorem vars_overlayOS (pairs : List (Str × Str)) :
    ∀ (os : OS), (overlayOS os pairs).vars = pairs.foldl (fun l p => storeA l p.1 p.2) os.vars := by
  induction pairs with
  | nil => intro os; rfl
  | cons p rest ih =>
      intro os
      show (overlayOS (osStore os p.1 p.2) rest).vars = _
      rw [ih, List.foldl_cons]
      rfl

/-- The OS after a godotenv overlay, as a lookup: the file's last binding of
`k` wins, the prior OS otherwise. -/
theorem lookupA_overlayOS (os : OS) (pairs : List (Str × Str)) (k : Str) :
    lookupA (overlayOS os pairs).vars k = orElseO (lookupA pairs.reverse k) (lookupA os.vars k) := by
  rw [vars_overlayOS, lookupA_foldl_storeA]

theorem getenv_repairGOPATH (os : OS) (cmd : Option Str) (k : Str) (hk : k ≠ kGOPATH) :
    getenv (repairGOPATH os cmd) k = getenv os k := by
  unfold repairGOPATH
  by_cases h : getenv os kGOPATH = []
  · rw [if_pos h]
    cases cmd with
    | none => rfl
    | some gp =>
        show (lookupA (storeA os.vars kGOPATH gp) k).getD [] = _
        rw [lookupA_storeA_ne _ _ _ _ hk]
        rfl
  · rw [if_neg h]

theorem mem_keys_repairGOPATH (os : OS) (cmd : Option Str) (k : Str)
    (h : k ∈ os.vars.map Prod.fst) : k ∈ (repairGOPATH os cmd).vars.map Prod.fst := by
  unfold repairGOPATH
  by_cases hg : getenv os kGOPATH = []
  · rw [if_pos hg]
    cases cmd with
    | none => exact h
    | some gp => exact mem_keys_storeA _ _ _ _ h
  · rw [if_neg hg]
    exact h

/-!
## Unfolding lemmas for the Load loop
-/

theorem fileOK_elim (fs : List (Str × Option (List (Str × Str)))) (f : Str)
    (h : fileOK fs f = true) : ∃ pairs, lookupA fs f = some (some pairs) := by
  unfold fileOK at h
  cases hl : lookupA fs f with
  | none => rw [hl] at h; simp at h
  | some o =>
      cases o with
      | none => rw [hl] at h; simp at h
      | some pairs => exact ⟨pairs, rfl⟩

theorem fileOK_intro (fs : List (Str × Option (List (Str × Str)))) (f : Str)
    (pairs : List (Str × Str)) (h : lookupA fs f = some (some pairs)) :
    fileOK fs f = true := by
  unfold fileOK
  rw [h]

theorem loadFiles_cons_ok (w : WorldEnv) (e : Env) (file : Str) (rest : List Str)
    (pairs : List (Str × Str)) (h : lookupA w.fs file = some (some pairs)) :
    Env.loadFiles w e (file :: rest) =
      Env.loadFiles (Env.Reload { w with os := overlayOS w.os pairs } e).1
        (Env.Reload { w with os := overlayOS w.os pairs } e).2 rest := by
  show (if statOK w.fs file then
      match overloadFile w file with
      | .error err => (w, e, some err)
      | .ok w1 => Env.loadFiles (Env.Reload w1 e).1 (Env.Reload w1 e).2 rest
    else (w, e, some (.stat file))) = _
  rw [show statOK w.fs file = true by unfold statOK; rw [h]; rfl, if_pos rfl]
  rw [show overloadFile w file = .ok { w with os := overlayOS w.os pairs } by
    unfold overloadFile; rw [h]]

theorem loadFiles_cons_stat (w : WorldEnv) (e : Env) (file : Str) (rest : List Str)
    (h : lookupA w.fs file = none) :
    Env.loadFiles w e (file :: rest) = (w, e, some (.stat file)) := by
  show (if statOK w.fs file then
      match overloadFile w file with
      | .error err => (w, e, some err)
      | .ok w1 => Env.loadFiles (Env.Reload w1 e).1 (Env.Reload w1 e).2 rest
    else (w, e, some (.stat file))) = _
  rw [show statOK w.fs file = false by unfold statOK; rw [h]; rfl]
  rfl

theorem loadFiles_cons_parse (w : WorldEnv) (e : Env) (file : Str) (rest : List Str)
    (h : lookupA w.fs file = some none) :
    Env.loadFiles w e (file :: rest) = (w, e, some (.parse file)) := by
  show (if statOK w.fs file then
      match overloadFile w file with
      | .error err => (w, e, some err)
      | .ok w1 => Env.loadFiles (Env.Reload w1 e).1 (Env.Reload w1 e).2 rest
    else (w, e, some (.stat file))) = _
  rw [show statOK w.fs file = true by unfold statOK; rw [h]; rfl, if_pos rfl]
  rw [show overloadFile w file = .error (.parse file) by unfold overloadFile; rw [h]]

/-- A failing stat after a prefix of mergeable files: the error is that
file's, the loop stops, and world and store are exactly what the prefix
produced. -/
theorem loadFiles_append_stat (pre : List Str) :
    ∀ (w : WorldEnv) (e : Env) (bad : Str) (post : List Str),
    (∀ f ∈ pre, fileOK w.fs f = true) → statOK w.fs bad = false →
    Env.loadFiles w e (pre ++ bad :: post) =
      ((Env.loadFiles w e pre).1, (Env.loadFiles w e pre).2.1, some (FileError.stat bad)) ∧
    (Env.loadFiles w e pre).2.2 = none := by
  induction pre with
  | nil =>
      intro w e bad post _ hbad
      refine ⟨?_, rfl⟩
      rw [List.nil_append]
      have : lookupA w.fs bad = none := by
        unfold statOK at hbad
        cases hl : lookupA w.fs bad with
        | none => rfl
        | some o => rw [hl] at hbad; simp at hbad
      rw [loadFiles_cons_stat w e bad post this]
      rfl
  | cons f pre ih =>
      intro w e bad post hpre hbad
      obtain ⟨pairs, hp⟩ := fileOK_elim w.fs f (hpre f (List.mem_cons_self f pre))
      rw [List.cons_append, loadFiles_cons_ok w e f (pre ++ bad :: post) pairs hp,
        loadFiles_cons_ok w e f pre pairs hp]
      exact ih _ _ bad post (fun f2 h2 => hpre f2 (List.mem_cons_of_mem f h2)) hbad

/-- The loop reports success only when every file in the list exists and
parses. -/
theorem loadFiles_none (files : List Str) :
    ∀ (w : WorldEnv) (e : Env),
    (Env.loadFiles w e files).2.2 = none → ∀ f ∈ files, fileOK w.fs f = true := by
  induction files with
  | nil => intro w e _ f hf; simp at hf
  | cons f0 rest ih =>
      intro w e h f hf
      cases hl : lookupA w.fs f0 with
      | none =>
          rw [loadFiles_cons_stat w e f0 rest hl] at h
          simp at h
      | some o =>
          cases o with
          | none =>
              rw [loadFiles_cons_parse w e f0 rest hl] at h
              simp at h
          | some pairs =>
              rw [loadFiles_cons_ok w e f0 rest pairs hl] at h
              rcases List.mem_cons.mp hf with h0 | h0
              · subst h0
                exact fileOK_intro w.fs f pairs hl
              · exact ih _ _ h f h0

/-- The store a Reload installs is a seeding of the (repaired) OS over some
base (the base is empty or carries the GO_ENV=test injection). -/
theorem Reload_env_seed (w : WorldEnv) (e : Env) :
    ∃ base, (Env.Reload w e).2 = Env.mk (seedStore (repairGOPATH w.os w.goEnvGOPATH) base) :=
  ⟨_, rfl⟩

theorem Env.get_value_of_lookup (e : Env) (k d v : Str) (h : lookupA e.env k = some v) :
    Env.Get e k d = v := by
  unfold Env.Get
  rw [h]

theorem Environment.mustGet_of_lookup (e : Environment) (k v : Str)
    (h : lookupA e.pairs k = some v) : Environment.Get e k = .ok v := by
  unfold Environment.Get
  rw [h]

theorem Environment.loadGoMod_pairs (w : World) (e : Environment) :
    (Environment.loadGoMod w e).pairs = e.pairs := by
  unfold Environment.loadGoMod
  cases w.goEnvGOMOD <;> rfl

theorem Environment.loadEnv_pairs (w : World) (e : Environment) :
    (Environment.loadEnv w e).2.pairs = seedPairs (repairGOPATH w.os w.goEnvGOPATH) := by
  unfold Environment.loadEnv repairGOPATH
  by_cases hc : getenv w.os kGOPATH = []
  · rw [if_pos hc, if_pos hc]
  · rw [if_neg hc, if_neg hc]

theorem repairGOPATH_none (os : OS) : repairGOPATH os none = os := by
  unfold repairGOPATH
  exact ite_self os

/-!
## The claims
-/

/-- C1 counterexample: Load(["a.env","b.env"]) where a.env defines K=1 and
b.env defines K=2 (empty prior OS) leaves Get(K,"") at "2" — the value of
the *later* file — because godotenv.Overload overrides already-set keys.
The claimed first-file-wins value "1" is not what the code produces. -/
theorem c1_counterexample :
    Env.Get (Env.Load
        ⟨⟨[]⟩, false, none,
          [(String.toList "a.env", some [(String.toList "K", String.toList "1")]),
           (String.toList "b.env", some [(String.toList "K", String.toList "2")])]⟩
        ⟨[]⟩
        [String.toList "a.env", String.toList "b.env"]).2.1
      (String.toList "K") [] = String.toList "2" ∧
    String.toList "2" ≠ String.toList "1" :=
  ⟨by decide, by decide⟩

/-- C1 (amended): for Load(files) over two accessible, successfully parsed
files that both define K, the value observable afterwards via Get(K, "") is
the value from the **latest** file in the argument list that defines K: the
godotenv.Overload merge overrides keys already defined by earlier files in
the same call or pre-existing in the OS environment, so the later file's
binding wins regardless of the earlier file's contents and of the prior OS
value.  (Stated for any separator-free key other than GOPATH, which the
GOPATH repair step could rewrite.) -/
theorem c1_load_last_file_wins (w : WorldEnv) (e : Env) (f1 f2 k v2 : Str)
    (p1 p2 : List (Str × Str))
    (h1 : lookupA w.fs f1 = some (some p1))
    (h2 : lookupA w.fs f2 = some (some p2))
    (hk : eqc ∉ k) (hkg : k ≠ kGOPATH)
    (hv : lookupA p2.reverse k = some v2) :
    (Env.Load w e [f1, f2]).2.2 = none ∧
    Env.Get (Env.Load w e [f1, f2]).2.1 k [] = v2 := by
  have hL : Env.Load w e [f1, f2] = Env.loadFiles w e [f1, f2] := rfl
  rw [hL, loadFiles_cons_ok w e f1 [f2] p1 h1]
  set w1 := (Env.Reload { w with os := overlayOS w.os p1 } e).1 with hw1def
  set e1 := (Env.Reload { w with os := overlayOS w.os p1 } e).2 with he1def
  rw [loadFiles_cons_ok w1 e1 f2 [] p2 h2]
  set w2 := { w1 with os := overlayOS w1.os p2 } with hw2def
  refine ⟨rfl, ?_⟩
  show Env.Get (Env.Reload w2 e1).2 k [] = v2
  obtain ⟨base, hbase⟩ := Reload_env_seed w2 e1
  rw [hbase]
  have hlook : lookupA (overlayOS w1.os p2).vars k = some v2 := by
    rw [lookupA_overlayOS, hv]
    rfl
  have hos2 : getenv w2.os k = v2 := by
    show (lookupA (overlayOS w1.os p2).vars k).getD [] = v2
    rw [hlook]
    rfl
  have hmem : k ∈ w2.os.vars.map Prod.fst := lookupA_mem_keys _ _ _ hlook
  apply Env.get_value_of_lookup
  show lookupA (seedStore (repairGOPATH w2.os w2.goEnvGOPATH) base) k = some v2
  rw [lookupA_seedStore (repairGOPATH w2.os w2.goEnvGOPATH) base k hk
      (mem_keys_repairGOPATH w2.os w2.goEnvGOPATH k hmem),
    getenv_repairGOPATH w2.os w2.goEnvGOPATH k hkg, hos2]

/-- C5: a failing stat on file `bad` after a prefix of mergeable files makes
Load return that file's access error at once, with the world and the store
exactly as the prefix left them (earlier merges kept, `bad` and everything
after it unapplied), the prefix itself having succeeded; and a non-empty
Load returns nil only when every file in the list exists and parses. -/
theorem c5_load_failstop (w : WorldEnv) (e : Env) (pre post : List Str) (bad : Str)
    (hpre : ∀ f ∈ pre, fileOK w.fs f = true) (hbad : statOK w.fs bad = false) :
    Env.Load w e (pre ++ bad :: post) =
      ((Env.loadFiles w e pre).1, (Env.loadFiles w e pre).2.1, some (FileError.stat bad)) ∧
    (Env.loadFiles w e pre).2.2 = none ∧
    (∀ files : List Str, files ≠ [] → (Env.Load w e files).2.2 = none →
      ∀ f ∈ files, fileOK w.fs f = true) := by
  have hL : Env.Load w e (pre ++ bad :: post) = Env.loadFiles w e (pre ++ bad :: post) := by
    cases pre <;> rfl
  obtain ⟨hmain, hnone⟩ := loadFiles_append_stat pre w e bad post hpre hbad
  refine ⟨by rw [hL]; exact hmain, hnone, ?_⟩
  intro files hne hfnone f hfmem
  have hLf : Env.Load w e files = Env.loadFiles w e files := by
    cases files with
    | nil => exact absurd rfl hne
    | cons a b => rfl
  rw [hLf] at hfnone
  exact loadFiles_none files w e hfnone f hfmem

/-- C1 (amended), witnessed at a concrete two-file call: y.env's value wins. -/
theorem c1_load_last_file_wins_witness :
    (Env.Load
        ⟨⟨[(String.toList "HOME", String.toList "h")]⟩, false, none,
          [(String.toList "x.env", some [(String.toList "DIR", String.toList "one")]),
           (String.toList "y.env", some [(String.toList "DIR", String.toList "two")])]⟩
        ⟨[]⟩
        [String.toList "x.env", String.toList "y.env"]).2.2 = none ∧
    Env.Get (Env.Load
        ⟨⟨[(String.toList "HOME", String.toList "h")]⟩, false, none,
          [(String.toList "x.env", some [(String.toList "DIR", String.toList "one")]),
           (String.toList "y.env", some [(String.toList "DIR", String.toList "two")])]⟩
        ⟨[]⟩
        [String.toList "x.env", String.toList "y.env"]).2.1
      (String.toList "DIR") [] = String.toList "two" :=
  c1_load_last_file_wins
    ⟨⟨[(String.toList "HOME", String.toList "h")]⟩, false, none,
      [(String.toList "x.env", some [(String.toList "DIR", String.toList "one")]),
       (String.toList "y.env", some [(String.toList "DIR", String.toList "two")])]⟩
    ⟨[]⟩ (String.toList "x.env") (String.toList "y.env")
    (String.toList "DIR") (String.toList "two")
    [(String.toList "DIR", String.toList "one")]
    [(String.toList "DIR", String.toList "two")]
    (by decide) (by decide) (by decide) (by decide) (by decide)

/-- C5, witnessed at a concrete call: one good file, then a missing one,
then another good one. -/
theorem c5_load_failstop_witness :
    Env.Load
        ⟨⟨[]⟩, false, none,
          [(String.toList "a.env", some [(String.toList "A", String.toList "1")]),
           (String.toList "c.env", some [(String.toList "C", String.toList "3")])]⟩
        ⟨[]⟩
        ([String.toList "a.env"] ++ String.toList "missing.env" :: [String.toList "c.env"]) =
      ((Env.loadFiles
          ⟨⟨[]⟩, false, none,
            [(String.toList "a.env", some [(String.toList "A", String.toList "1")]),
             (String.toList "c.env", some [(String.toList "C", String.toList "3")])]⟩
          ⟨[]⟩ [String.toList "a.env"]).1,
        (Env.loadFiles
          ⟨⟨[]⟩, false, none,
            [(String.toList "a.env", some [(String.toList "A", String.toList "1")]),
             (String.toList "c.env", some [(String.toList "C", String.toList "3")])]⟩
          ⟨[]⟩ [String.toList "a.env"]).2.1,
        some (FileError.stat (String.toList "missing.env"))) ∧
    (Env.loadFiles
        ⟨⟨[]⟩, false, none,
          [(String.toList "a.env", some [(String.toList "A", String.toList "1")]),
           (String.toList "c.env", some [(String.toList "C", String.toList "3")])]⟩
        ⟨[]⟩ [String.toList "a.env"]).2.2 = none ∧
    (∀ files : List Str, files ≠ [] →
      (Env.Load
          ⟨⟨[]⟩, false, none,
            [(String.toList "a.env", some [(String.toList "A", String.toList "1")]),
             (String.toList "c.env", some [(String.toList "C", String.toList "3")])]⟩
          ⟨[]⟩ files).2.2 = none →
      ∀ f ∈ files, fileOK
          [(String.toList "a.env", some [(String.toList "A", String.toList "1")]),
           (String.toList "c.env", some [(String.toList "C", String.toList "3")])] f = true) :=
  c5_load_failstop
    ⟨⟨[]⟩, false, none,
      [(String.toList "a.env", some [(String.toList "A", String.toList "1")]),
       (String.toList "c.env", some [(String.toList "C", String.toList "3")])]⟩
    ⟨[]⟩ [String.toList "a.env"] [String.toList "c.env"] (String.toList "missing.env")
    (by decide) (by decide)

/-- C3 counterexample: for absent K, the facade's Get(K,"d") — GetOr — *does*
mutate the store: LoadOrStore writes the default, K becomes present, and a
subsequent MustGet(K) succeeds instead of still failing. -/
theorem c3_counterexample :
    (Environment.GetOr ⟨[], [], [], []⟩ (String.toList "K") (String.toList "d")).1.pairs ≠
      (Environment.mk [] [] [] []).pairs ∧
    Environment.Get
        (Environment.GetOr ⟨[], [], [], []⟩ (String.toList "K") (String.toList "d")).1
        (String.toList "K") = .ok (String.toList "d") :=
  ⟨by decide, by rfl⟩

/-- C3 (amended): for every key k absent from the current store and default
d, Get(k, d) returns d but stores d under k as a side effect (envMap's
LoadOrStore), so the store differs from before exactly by that binding and a
subsequent MustGet(k) succeeds with d. -/
theorem c3_getOr_stores_default (e : Environment) (k d : Str)
    (h : lookupA e.pairs k = none) :
    (Environment.GetOr e k d).2 = d ∧
    (Environment.GetOr e k d).1.pairs = storeA e.pairs k d ∧
    Environment.Get (Environment.GetOr e k d).1 k = .ok d := by
  have hp : (Environment.GetOr e k d).1.pairs = storeA e.pairs k d := by
    unfold Environment.GetOr loadOrStoreA
    rw [h]
  refine ⟨?_, hp, ?_⟩
  · unfold Environment.GetOr loadOrStoreA
    rw [h]
  · apply Environment.mustGet_of_lookup
    rw [hp]
    exact lookupA_storeA_self e.pairs k d

/-- C3 (amended), witnessed at a concrete absent key. -/
theorem c3_getOr_stores_default_witness :
    (Environment.GetOr ⟨[], [], [], []⟩ (String.toList "A") (String.toList "x")).2 =
      String.toList "x" ∧
    (Environment.GetOr ⟨[], [], [], []⟩ (String.toList "A") (String.toList "x")).1.pairs =
      storeA [] (String.toList "A") (String.toList "x") ∧
    Environment.Get (Environment.GetOr ⟨[], [], [], []⟩ (String.toList "A") (String.toList "x")).1
      (String.toList "A") = .ok (String.toList "x") :=
  c3_getOr_stores_default ⟨[], [], [], []⟩ (String.toList "A") (String.toList "x") (by decide)

/-- C4 counterexample: when the package-loading collaborator inside New
fails, Reload returns that error and leaves the engine exactly as it was —
it does not "complete without signalling an error". -/
theorem c4_counterexample :
    Environment.Reload ⟨⟨[]⟩, false, none, none⟩ ⟨[], [], [], []⟩ =
      (⟨⟨[]⟩, false, none, none⟩, ⟨[], [], [], []⟩, some NewError.pkgs) ∧
    (Environment.Reload ⟨⟨[]⟩, false, none, none⟩ ⟨[], [], [], []⟩).2.2 ≠ none :=
  ⟨by decide, by decide⟩

/-- C4 (amended): Reload never fails *provided* the package-loading
collaborator of New succeeds; it then discards the current store entirely —
the result does not depend on the prior engine state — and reseeds the pairs
from the (GOPATH-repaired) OS environment.  When that collaborator fails,
(*Environment).Reload returns the error and leaves the engine unchanged.
((*Env).Reload, which has no error channel, indeed never fails.) -/
theorem c4_reload_ok (w : World) (e : Environment) (h : w.pkgsOK = true) :
    (Environment.Reload w e).2.2 = none ∧
    (∀ e2 : Environment, (Environment.Reload w e).2.1 = (Environment.Reload w e2).2.1) ∧
    (Environment.Reload w e).2.1.pairs = seedPairs (repairGOPATH w.os w.goEnvGOPATH) := by
  have hnew : ∀ e3 : Environment, Environment.Reload w e3 =
      ((Environment.new w).1, (Environment.new w).2.toOption.getD e3, none) := by
    intro e3
    unfold Environment.Reload Environment.new
    rw [h]
    rfl
  refine ⟨by rw [hnew e], fun e2 => ?_, ?_⟩
  · rw [hnew e, hnew e2]
    show (Environment.new w).2.toOption.getD e = (Environment.new w).2.toOption.getD e2
    unfold Environment.new
    rw [h]
    rfl
  · rw [hnew e]
    show ((Environment.new w).2.toOption.getD e).pairs = _
    unfold Environment.new
    rw [h]
    show (Environment.loadGoMod _ (Environment.loadEnv w _).2).pairs = _
    rw [Environment.loadGoMod_pairs, Environment.loadEnv_pairs]

/-- C4 (amended), witnessed at a concrete world whose package loading
succeeds. -/
theorem c4_reload_ok_witness :
    (Environment.Reload ⟨⟨[]⟩, true, none, none⟩ ⟨[], [], [], []⟩).2.2 = none ∧
    (∀ e2 : Environment,
      (Environment.Reload ⟨⟨[]⟩, true, none, none⟩ ⟨[], [], [], []⟩).2.1 =
        (Environment.Reload ⟨⟨[]⟩, true, none, none⟩ e2).2.1) ∧
    (Environment.Reload ⟨⟨[]⟩, true, none, none⟩ ⟨[], [], [], []⟩).2.1.pairs =
      seedPairs (repairGOPATH ⟨[]⟩ none) :=
  c4_reload_ok ⟨⟨[]⟩, true, none, none⟩ ⟨[], [], [], []⟩ (by decide)

/-- C6: Set is a local-only upsert: the world — hence the OS environment and
every one of its bindings — is returned unchanged, and afterwards the
facade's Get(k, d) returns v. -/
theorem c6_set_local_only (w : World) (e : Environment) (k v d : Str) :
    (Environment.Set w e k v).1 = w ∧
    (Environment.GetOr (Environment.Set w e k v).2 k d).2 = v := by
  refine ⟨rfl, ?_⟩
  unfold Environment.GetOr loadOrStoreA
  rw [show lookupA (Environment.Set w e k v).2.pairs k = some v from lookupA_storeA_self _ k v]

/-- C7: MustSet (ForceSet) writes the OS first: on an invalid key/value the
OS primitive's error is returned unchanged and neither the world nor the
store moves; on success the OS binding and then the store binding are both
updated. -/
theorem c7_forceSet_os_first (w : World) (e : Environment) (k v : Str) :
    (setenvOK k v = false →
      Environment.ForceSet w e k v = (w, e, some (OSError.invalid k v))) ∧
    (setenvOK k v = true →
      Environment.ForceSet w e k v =
        ({ w with os := osStore w.os k v }, { e with pairs := storeA e.pairs k v }, none)) := by
  constructor
  · intro h
    simp [Environment.ForceSet, setenv, h]
  · intro h
    simp [Environment.ForceSet, setenv, h]

/-- C7, witnessed at an invalid (empty) key and at a valid one. -/
theorem c7_forceSet_os_first_witness :
    Environment.ForceSet ⟨⟨[]⟩, true, none, none⟩ ⟨[], [], [], []⟩ [] (String.toList "x") =
      (⟨⟨[]⟩, true, none, none⟩, ⟨[], [], [], []⟩, some (OSError.invalid [] (String.toList "x"))) ∧
    Environment.ForceSet ⟨⟨[]⟩, true, none, none⟩ ⟨[], [], [], []⟩
        (String.toList "A") (String.toList "x") =
      ({ (⟨⟨[]⟩, true, none, none⟩ : World) with
          os := osStore ⟨[]⟩ (String.toList "A") (String.toList "x") },
       { (⟨[], [], [], []⟩ : Environment) with
          pairs := storeA [] (String.toList "A") (String.toList "x") }, none) :=
  ⟨(c7_forceSet_os_first ⟨⟨[]⟩, true, none, none⟩ ⟨[], [], [], []⟩ [] (String.toList "x")).1
      (by decide),
   (c7_forceSet_os_first ⟨⟨[]⟩, true, none, none⟩ ⟨[], [], [], []⟩
      (String.toList "A") (String.toList "x")).2 (by decide)⟩

/-- C8: MustGet returns the NotFoundError exactly when the key is absent
from the current store, and the stored value with no error when present. -/
theorem c8_mustGet_notFound_iff (e : Environment) (key : Str) :
    (Environment.Get e key = .error (.notFound key) ↔ lookupA e.pairs key = none) ∧
    (∀ v, lookupA e.pairs key = some v → Environment.Get e key = .ok v) := by
  constructor
  · constructor
    · intro h
      cases hl : lookupA e.pairs key with
      | none => rfl
      | some v =>
          rw [Environment.mustGet_of_lookup e key v hl] at h
          exact Except.noConfusion h
    · intro h
      unfold Environment.Get
      rw [h]
  · intro v h
    exact Environment.mustGet_of_lookup e key v h

/-- C8, witnessed at a present key and an absent one. -/
theorem c8_mustGet_notFound_iff_witness :
    Environment.Get ⟨[(String.toList "A", String.toList "1")], [], [], []⟩ (String.toList "A") =
      .ok (String.toList "1") ∧
    Environment.Get ⟨[(String.toList "A", String.toList "1")], [], [], []⟩ (String.toList "B") =
      .error (.notFound (String.toList "B")) :=
  ⟨(c8_mustGet_notFound_iff ⟨[(String.toList "A", String.toList "1")], [], [], []⟩
      (String.toList "A")).2 (String.toList "1") (by decide),
   (c8_mustGet_notFound_iff ⟨[(String.toList "A", String.toList "1")], [], [], []⟩
      (String.toList "B")).1.mpr (by decide)⟩

/-- C10: the Environment variant's OS seeding splits each entry on every '='
and keeps only the first two segments, so a variable k whose value is
a ++ "=" ++ b (a free of '=') is seeded as the truncated prefix a, not the
full value.  (Stated with the GOPATH-repair command failing so the OS is not
enlarged mid-seed, with well-formed '='-free and duplicate-free OS keys.) -/
theorem c10_seed_truncates (w : World) (e : Environment) (k a b : Str)
    (hng : w.goEnvGOPATH = none)
    (hmem : (k, a ++ eqc :: b) ∈ w.os.vars)
    (hwf : ∀ p ∈ w.os.vars, eqc ∉ p.1)
    (hnd : (w.os.vars.map Prod.fst).Nodup)
    (ha : eqc ∉ a) :
    lookupA (Environment.loadEnv w e).2.pairs k = some a ∧
    some a ≠ some (a ++ eqc :: b) := by
  constructor
  · rw [Environment.loadEnv_pairs, hng, repairGOPATH_none,
      lookupA_seedPairs w.os k (a ++ eqc :: b) hwf hnd hmem,
      splitOnChar_append_sep eqc a b ha]
    rfl
  · intro hcontra
    have h2 : a = a ++ eqc :: b := Option.some.inj hcontra
    have h3 : a.length = a.length + (b.length + 1) := by
      conv_lhs => rw [h2]
      simp [List.length_append]
    omega

/-- C10, witnessed at a concrete OS with K=a=b. -/
theorem c10_seed_truncates_witness :
    lookupA (Environment.loadEnv
        ⟨⟨[(String.toList "K", String.toList "a" ++ eqc :: String.toList "b")]⟩,
          true, none, none⟩ ⟨[], [], [], []⟩).2.pairs (String.toList "K") =
      some (String.toList "a") ∧
    some (String.toList "a") ≠
      some (String.toList "a" ++ eqc :: String.toList "b") :=
  c10_seed_truncates
    ⟨⟨[(String.toList "K", String.toList "a" ++ eqc :: String.toList "b")]⟩, true, none, none⟩
    ⟨[], [], [], []⟩ (String.toList "K") (String.toList "a") (String.toList "b")
    (by decide) (by decide) (by decide) (by decide) (by decide)

/-!
## Frame reasoning for the reference-level model
-/

theorem readCell_writeCell_ne (h : StoreCells) (i j : Nat) (s : List (Str × Str))
    (hne : j ≠ i) : readCell (writeCell h i s) j = readCell h j := by
  unfold readCell writeCell
  rw [List.getD_eq_getElem?_getD, List.getD_eq_getElem?_getD,
    List.getElem?_set_ne (fun hh => hne hh.symm)]

theorem length_writeCell (h : StoreCells) (i : Nat) (s : List (Str × Str)) :
    (writeCell h i s).length = h.length := List.length_set h i s

theorem readCell_append_left (h1 h2 : StoreCells) (i : Nat) (hi : i < h1.length) :
    readCell (h1 ++ h2) i = readCell h1 i := by
  unfold readCell
  rw [List.getD_eq_getElem?_getD, List.getD_eq_getElem?_getD, List.getElem?_append_left hi]

theorem readCell_append_self (h1 : StoreCells) (x : List (Str × Str)) :
    readCell (h1 ++ [x]) h1.length = x := by
  unfold readCell
  rw [List.getD_eq_getElem?_getD, List.getElem?_concat_length]
  rfl

mutual

/-- Any facade operation leaves the current-store reference where it was and
touches no pre-existing cell other than (possibly) the current one. -/
theorem execCmd_frame : ∀ (c : Cmd) (m : Mem),
    (execCmd c m).1.cur = m.cur ∧
    m.heap.length ≤ (execCmd c m).1.heap.length ∧
    (∀ i, i < m.heap.length → i ≠ m.cur →
      readCell (execCmd c m).1.heap i = readCell m.heap i)
  | .set k v, m => by
      refine ⟨rfl, ?_, ?_⟩
      · show m.heap.length ≤ (writeCell m.heap m.cur _).length
        rw [length_writeCell]
      · intro i _ hne
        show readCell (writeCell m.heap m.cur _) i = readCell m.heap i
        exact readCell_writeCell_ne _ _ _ _ hne
  | .del k, m => by
      refine ⟨rfl, ?_, ?_⟩
      · show m.heap.length ≤ (writeCell m.heap m.cur _).length
        rw [length_writeCell]
      · intro i _ hne
        show readCell (writeCell m.heap m.cur _) i = readCell m.heap i
        exact readCell_writeCell_ne _ _ _ _ hne
  | .abort, m => ⟨rfl, Nat.le_refl _, fun _ _ _ => rfl⟩
  | .temp body, m => by
      have hb := execProg_frame body
        ⟨m.heap ++ [copyStore (readCell m.heap m.cur)], m.heap.length⟩
      refine ⟨rfl, ?_, ?_⟩
      · refine Nat.le_trans ?_ hb.2.1
        rw [List.length_append]
        omega
      · intro i hi hne
        have hlt : i < (m.heap ++ [copyStore (readCell m.heap m.cur)]).length := by
          rw [List.length_append]
          omega
        have hmain := hb.2.2 i hlt (Nat.ne_of_lt hi)
        show readCell (execProg body _).1.heap i = readCell m.heap i
        rw [hmain]
        exact readCell_append_left _ _ i hi

/-- As `execCmd_frame`, for a whole body. -/
theorem execProg_frame : ∀ (p : List Cmd) (m : Mem),
    (execProg p m).1.cur = m.cur ∧
    m.heap.length ≤ (execProg p m).1.heap.length ∧
    (∀ i, i < m.heap.length → i ≠ m.cur →
      readCell (execProg p m).1.heap i = readCell m.heap i)
  | [], m => ⟨rfl, Nat.le_refl _, fun _ _ _ => rfl⟩
  | c :: p, m => by
      have hc := execCmd_frame c m
      cases hr : (execCmd c m).2 with
      | true =>
          have heq : execProg (c :: p) m = execProg p (execCmd c m).1 := by
            show (if (execCmd c m).2 then execProg p (execCmd c m).1
              else ((execCmd c m).1, false)) = _
            rw [hr]
            rfl
          have hp := execProg_frame p (execCmd c m).1
          rw [heq]
          refine ⟨?_, ?_, ?_⟩
          · rw [hp.1, hc.1]
          · exact Nat.le_trans hc.2.1 hp.2.1
          · intro i hi hne
            rw [hp.2.2 i (Nat.lt_of_lt_of_le hi hc.2.1) (by rw [hc.1]; exact hne)]
            exact hc.2.2 i hi hne
      | false =>
          have heq : execProg (c :: p) m = ((execCmd c m).1, false) := by
            show (if (execCmd c m).2 then execProg p (execCmd c m).1
              else ((execCmd c m).1, false)) = _
            rw [hr]
            rfl
          rw [heq]
          exact hc

end

theorem mutateCellMany_frame (gs : List (List (Str × Str) → List (Str × Str))) :
    ∀ (m0 : Mem) (r j : Nat), j ≠ r →
    (mutateCellMany m0 r gs).cur = m0.cur ∧
    readCell (mutateCellMany m0 r gs).heap j = readCell m0.heap j := by
  induction gs with
  | nil => intro m0 r j _; exact ⟨rfl, rfl⟩
  | cons g gs ih =>
      intro m0 r j hj
      obtain ⟨h1, h2⟩ := ih (mutateCell m0 r g) r j hj
      refine ⟨?_, ?_⟩
      · show (mutateCellMany (mutateCell m0 r g) r gs).cur = m0.cur
        rw [h1]
        rfl
      · show readCell (mutateCellMany (mutateCell m0 r g) r gs).heap j = readCell m0.heap j
        rw [h2]
        exact readCell_writeCell_ne _ _ _ _ hj

/-- C2: after Temp(body) returns — normally or with a panic propagating —
the current store is exactly the reference that was current before Temp was
entered, and Map() afterwards equals the snapshot from before the call, for
every body built from Set/Delete mutations, nested Temp blocks and panics;
a nested Temp inside the body restores its own enclosing store by this same
statement applied to the inner block. -/
theorem c2_temp_restores (body : List Cmd) (m : Mem) (h : m.cur < m.heap.length) :
    (facadeTemp body m).1.cur = m.cur ∧
    readCell (facadeTemp body m).1.heap m.cur = readCell m.heap m.cur ∧
    facadeMapValue (facadeTemp body m).1 = facadeMapValue m := by
  have hb := execProg_frame body
    ⟨m.heap ++ [copyStore (readCell m.heap m.cur)], m.heap.length⟩
  have hcur : (facadeTemp body m).1.cur = m.cur := rfl
  have hread : readCell (facadeTemp body m).1.heap m.cur = readCell m.heap m.cur := by
    have hlt : m.cur < (m.heap ++ [copyStore (readCell m.heap m.cur)]).length := by
      rw [List.length_append]
      omega
    have hmain := hb.2.2 m.cur hlt (Nat.ne_of_lt h)
    show readCell (execProg body _).1.heap m.cur = _
    rw [hmain]
    exact readCell_append_left _ _ _ h
  refine ⟨hcur, hread, ?_⟩
  unfold facadeMapValue
  rw [hcur, hread]

/-- C2, witnessed: a body that mutates and then panics, around a one-cell
heap. -/
theorem c2_temp_restores_witness :
    (facadeTemp [Cmd.set (String.toList "A") (String.toList "1"), Cmd.abort]
        ⟨[[(String.toList "B", String.toList "2")]], 0⟩).1.cur = 0 ∧
    readCell (facadeTemp [Cmd.set (String.toList "A") (String.toList "1"), Cmd.abort]
        ⟨[[(String.toList "B", String.toList "2")]], 0⟩).1.heap 0 =
      readCell [[(String.toList "B", String.toList "2")]] 0 ∧
    facadeMapValue (facadeTemp [Cmd.set (String.toList "A") (String.toList "1"), Cmd.abort]
        ⟨[[(String.toList "B", String.toList "2")]], 0⟩).1 =
      facadeMapValue ⟨[[(String.toList "B", String.toList "2")]], 0⟩ :=
  c2_temp_restores [Cmd.set (String.toList "A") (String.toList "1"), Cmd.abort]
    ⟨[[(String.toList "B", String.toList "2")]], 0⟩ (by decide)

/-- C9: Map hands back a freshly allocated full copy of the current store —
the returned reference differs from the store's, its contents are the copy —
and after any sequence of caller-side mutations of the returned mapping,
every subsequent Get on the store returns exactly what it returned before. -/
theorem c9_map_independent (m : Mem) (h : m.cur < m.heap.length)
    (gs : List (List (Str × Str) → List (Str × Str))) (k d : Str) :
    (facadeMapAlloc m).2 ≠ m.cur ∧
    readCell (facadeMapAlloc m).1.heap (facadeMapAlloc m).2 = facadeMapValue m ∧
    facadeGetValue (mutateCellMany (facadeMapAlloc m).1 (facadeMapAlloc m).2 gs) k d =
      facadeGetValue m k d := by
  have hne : m.cur ≠ (facadeMapAlloc m).2 := Nat.ne_of_lt h
  refine ⟨fun hh => hne hh.symm, ?_, ?_⟩
  · show readCell (m.heap ++ [copyStore (readCell m.heap m.cur)]) m.heap.length = _
    rw [readCell_append_self]
    rfl
  · obtain ⟨h1, h2⟩ :=
      mutateCellMany_frame gs (facadeMapAlloc m).1 (facadeMapAlloc m).2 m.cur hne
    have h3 : readCell (facadeMapAlloc m).1.heap m.cur = readCell m.heap m.cur :=
      readCell_append_left _ _ _ h
    unfold facadeGetValue
    rw [h1]
    show (lookupA (readCell (mutateCellMany (facadeMapAlloc m).1 (facadeMapAlloc m).2 gs).heap
        m.cur) k).getD d = (lookupA (readCell m.heap m.cur) k).getD d
    rw [h2, h3]

/-- C9, witnessed: one concrete store, a mutation that erases the returned
copy wholesale, and a Get that is unaffected. -/
theorem c9_map_independent_witness :
    (facadeMapAlloc ⟨[[(String.toList "A", String.toList "1")]], 0⟩).2 ≠ 0 ∧
    readCell (facadeMapAlloc ⟨[[(String.toList "A", String.toList "1")]], 0⟩).1.heap
        (facadeMapAlloc ⟨[[(String.toList "A", String.toList "1")]], 0⟩).2 =
      facadeMapValue ⟨[[(String.toList "A", String.toList "1")]], 0⟩ ∧
    facadeGetValue (mutateCellMany
        (facadeMapAlloc ⟨[[(String.toList "A", String.toList "1")]], 0⟩).1
        (facadeMapAlloc ⟨[[(String.toList "A", String.toList "1")]], 0⟩).2
        [fun _ => []])
      (String.toList "A") [] =
      facadeGetValue ⟨[[(String.toList "A", String.toList "1")]], 0⟩ (String.toList "A") [] :=
  c9_map_independent ⟨[[(String.toList "A", String.toList "1")]], 0⟩ (by decide)
    [fun _ => []] (String.toList "A") []

end Envy
